import Mathlib

set_option maxHeartbeats 1000000

/-!
Verification development for the feco3 streaming parser of FEC filings.

The Rust sources under crates/feco3/src are shallowly embedded below:
line.rs and parser.rs (record decoding) and fec.rs (the lazy FecFile
orchestrator) are translated directly; the modules header.rs, csv.rs,
cover.rs and schemas.rs are not part of the excerpt and are modelled from
the design document, each such definition marked with a doc comment that
starts with the words Modelled from the spec.
-/

namespace Feco3

deriving instance DecidableEq for Except

/-- Type of a field value, from line.rs (ValueType). -/
inductive ValueType where
  | String
  | Integer
  | Float
  | Date
  | Boolean
deriving DecidableEq

/-- A decoded field value, from line.rs (Value). The Rust Float case carries
an f64; floating point numbers are not representable here, so the Float case
carries the accepted source text. Parse success and failure for floats is
modelled exactly by rustParseF64Ok below. -/
inductive Value where
  | String : String → Value
  | Integer : Int → Value
  | Float : String → Value
  | Date : String → Value
  | Boolean : Bool → Value
deriving DecidableEq

/-- A named, typed field slot of a schema, from line.rs (FieldSchema). -/
structure FieldSchema where
  name : String
  typ : ValueType
deriving DecidableEq

/-- The schema of one line code, from line.rs (LineSchema). In Rust its Eq and
Hash are keyed on code only; the DecidableEq derived here is the structural
one and is used only to evaluate concrete witnesses. -/
structure LineSchema where
  code : String
  fields : List FieldSchema
deriving DecidableEq

/-- A parsed line of a .FEC file, from line.rs (Line). The values list may
contain fewer or more values than the schema expects. -/
structure Line where
  schema : LineSchema
  values : List Value
deriving DecidableEq

/-- Numeric value of a decimal digit character, none otherwise. -/
def digitVal (c : Char) : Option Nat :=
  if c.isDigit then some (c.toNat - 48) else none

/-- Accumulate decimal digits; none as soon as a non-digit appears. -/
def digitsToNatAux : Nat → List Char → Option Nat
  | acc, [] => some acc
  | acc, c :: cs =>
    match digitVal c with
    | some d => digitsToNatAux (acc * 10 + d) cs
    | none => none

/-- Value of a nonempty, all-digit character list; none otherwise. -/
def digitsToNat : List Char → Option Nat
  | [] => none
  | cs => digitsToNatAux 0 cs

/-- Model of the Rust standard i64 parser (str parse to i64): an optional
sign, then one or more decimal digits, with a two-complement range check.
Returns none exactly when Rust returns Err. -/
def rustParseI64 (s : String) : Option Int :=
  match s.data with
  | '+' :: ds =>
    (digitsToNat ds).bind (fun n => if n ≤ 2 ^ 63 - 1 then some (n : Int) else none)
  | '-' :: ds =>
    (digitsToNat ds).bind (fun n => if n ≤ 2 ^ 63 then some (-(n : Int)) else none)
  | ds =>
    (digitsToNat ds).bind (fun n => if n ≤ 2 ^ 63 - 1 then some (n : Int) else none)

/-- Nonempty and all decimal digits. -/
def isDigits (cs : List Char) : Bool :=
  !cs.isEmpty && cs.all Char.isDigit

/-- Split a character list at the first exponent marker e or E, if any. -/
def splitAtExpAux : List Char → List Char → List Char × Option (List Char)
  | acc, [] => (acc.reverse, none)
  | acc, c :: cs =>
    if c = 'e' ∨ c = 'E' then (acc.reverse, some cs)
    else splitAtExpAux (c :: acc) cs

/-- Split a character list at the first exponent marker e or E, if any. -/
def splitAtExp (cs : List Char) : List Char × Option (List Char) :=
  splitAtExpAux [] cs

/-- Valid decimal significand: digits, digits dot optional-digits,
or dot digits. -/
def mantissaOk (cs : List Char) : Bool :=
  match cs.splitOn '.' with
  | [a] => isDigits a
  | [a, b] => (isDigits a && (b.isEmpty || isDigits b)) || (a.isEmpty && isDigits b)
  | _ => false

/-- Valid exponent part: optional sign then digits. -/
def expOk : List Char → Bool
  | '+' :: ds => isDigits ds
  | '-' :: ds => isDigits ds
  | ds => isDigits ds

/-- Valid decimal float literal body: significand with optional exponent. -/
def floatNumOk (cs : List Char) : Bool :=
  match splitAtExp cs with
  | (m, none) => mantissaOk m
  | (m, some e) => mantissaOk m && expOk e

/-- Unsigned float literal body: inf, infinity or nan case-insensitively,
else a decimal significand with optional exponent. -/
def floatBodyOk (cs : List Char) : Bool :=
  let l := cs.map Char.toLower
  if l = "inf".data || l = "infinity".data || l = "nan".data then true
  else floatNumOk cs

/-- Model of the Rust standard f64 parser (str parse to f64), success only:
optional sign, then the float body per the Rust core grammar. The numeric
value is not modelled; true exactly when Rust returns Ok. -/
def rustParseF64Ok (s : String) : Bool :=
  match s.data with
  | '+' :: cs => floatBodyOk cs
  | '-' :: cs => floatBodyOk cs
  | cs => floatBodyOk cs

/-- Model of the Rust standard bool parser (str parse to bool): exactly the
tokens true and false are accepted. -/
def rustParseBool (s : String) : Option Bool :=
  if s = "true" then some true
  else if s = "false" then some false
  else none

/-- A UTF-8 continuation byte. -/
def isCont (b : Nat) : Bool := 128 ≤ b && b < 192

/-- Strict UTF-8 decoding of a byte list into scalar values, none on any
invalid sequence (overlong forms, surrogates and out-of-range values are
rejected). Models the Rust standard strict conversion from bytes to a
string, which parse_csv_record in parser.rs applies to the first field. -/
def utf8Decode : List Nat → Option (List Nat)
  | [] => some []
  | b :: rest =>
    if b < 128 then (utf8Decode rest).map (fun cps => b :: cps)
    else if b < 194 then none
    else if b < 224 then
      match rest with
      | b1 :: rest2 =>
        if isCont b1 then
          (utf8Decode rest2).map (fun cps => ((b - 192) * 64 + (b1 - 128)) :: cps)
        else none
      | [] => none
    else if b < 240 then
      match rest with
      | b1 :: b2 :: rest3 =>
        if (if b = 224 then (Nat.ble 160 b1 && Nat.blt b1 192)
            else if b = 237 then (Nat.ble 128 b1 && Nat.blt b1 160)
            else isCont b1) && isCont b2 then
          (utf8Decode rest3).map
            (fun cps => ((b - 224) * 4096 + (b1 - 128) * 64 + (b2 - 128)) :: cps)
        else none
      | _ => none
    else if b < 245 then
      match rest with
      | b1 :: b2 :: b3 :: rest4 =>
        if (if b = 240 then (Nat.ble 144 b1 && Nat.blt b1 192)
            else if b = 244 then (Nat.ble 128 b1 && Nat.blt b1 144)
            else isCont b1) && isCont b2 && isCont b3 then
          (utf8Decode rest4).map
            (fun cps =>
              ((b - 240) * 262144 + (b1 - 128) * 4096 + (b2 - 128) * 64 + (b3 - 128)) :: cps)
        else none
      | _ => none
    else none

/-- Lossy UTF-8 decoding of a byte list into scalar values: an invalid byte is
replaced by the replacement character U+FFFD and decoding continues. Models
the Rust standard lossy conversion used by parse_raw_field_val in parser.rs;
it agrees with utf8Decode on valid input and never fails. The exact width of
each replacement is immaterial to the claims and is one byte here. -/
def utf8LossyAux : Nat → List Nat → List Nat
  | 0, _ => []
  | _, [] => []
  | fuel + 1, b :: rest =>
    if b < 128 then b :: utf8LossyAux fuel rest
    else if b < 194 then 65533 :: utf8LossyAux fuel rest
    else if b < 224 then
      match rest with
      | b1 :: rest2 =>
        if isCont b1 then ((b - 192) * 64 + (b1 - 128)) :: utf8LossyAux fuel rest2
        else 65533 :: utf8LossyAux fuel (b1 :: rest2)
      | [] => [65533]
    else if b < 240 then
      match rest with
      | b1 :: b2 :: rest3 =>
        if (if b = 224 then (Nat.ble 160 b1 && Nat.blt b1 192)
            else if b = 237 then (Nat.ble 128 b1 && Nat.blt b1 160)
            else isCont b1) && isCont b2 then
          ((b - 224) * 4096 + (b1 - 128) * 64 + (b2 - 128)) :: utf8LossyAux fuel rest3
        else 65533 :: utf8LossyAux fuel (b1 :: b2 :: rest3)
      | [b1] => 65533 :: utf8LossyAux fuel [b1]
      | [] => [65533]
    else if b < 245 then
      match rest with
      | b1 :: b2 :: b3 :: rest4 =>
        if (if b = 240 then (Nat.ble 144 b1 && Nat.blt b1 192)
            else if b = 244 then (Nat.ble 128 b1 && Nat.blt b1 144)
            else isCont b1) && isCont b2 && isCont b3 then
          ((b - 240) * 262144 + (b1 - 128) * 4096 + (b2 - 128) * 64 + (b3 - 128))
            :: utf8LossyAux fuel rest4
        else 65533 :: utf8LossyAux fuel (b1 :: b2 :: b3 :: rest4)
      | [b1, b2] => 65533 :: utf8LossyAux fuel [b1, b2]
      | [b1] => 65533 :: utf8LossyAux fuel [b1]
      | [] => [65533]
    else 65533 :: utf8LossyAux fuel rest

/-- Lossy decoding entry point: every step of utf8LossyAux consumes at least
one byte, so the length of the input is always enough fuel. -/
def utf8Lossy (l : List Nat) : List Nat := utf8LossyAux l.length l

/-- Build a string from a list of scalar values. -/
def codepointsToString (cps : List Nat) : String :=
  String.mk (cps.map Char.ofNat)

/-- Split a character list at every occurrence of the separator character;
the separators are not in the result. -/
def splitOnCharAux (c : Char) : List Char → List Char → List String
  | acc, [] => [String.mk acc.reverse]
  | acc, x :: xs =>
    if x = c then String.mk acc.reverse :: splitOnCharAux c [] xs
    else splitOnCharAux c (x :: acc) xs

/-- Split a string at every occurrence of the separator character. Agrees
with the standard single-character split: the empty string yields one empty
field, and n separators yield n plus one fields. -/
def splitOnChar (c : Char) (s : String) : List String :=
  splitOnCharAux c [] s.data

/-- Modelled from the spec: schemas.rs (the Schema Registry) is not in the
excerpt. Only its lookup contract is specified: lookup by version and code
yields a LineSchema or an error. The registry is passed as a parameter. -/
abbrev Registry := String → String → Except String LineSchema

namespace line

/-- Default schema used for surplus fields, from parse_raw_field_val in
line.rs (default_field_schema). -/
def default_field_schema : FieldSchema := ⟨"extra", ValueType.String⟩

/-- Field coercion from parse_raw_field_val in line.rs: given the raw text
and the schema slot if any (the synthetic extra slot otherwise), produce a
typed Value or an error string. -/
def parse_raw_field_val (raw : String) (field_schema : Option FieldSchema) :
    Except String Value :=
  let fs := field_schema.getD default_field_schema
  match fs.typ with
  | ValueType.String => Except.ok (Value.String raw)
  | ValueType.Integer =>
    match rustParseI64 raw with
    | some i => Except.ok (Value.Integer i)
    | none => Except.error "invalid digit found in string"
  | ValueType.Float =>
    if rustParseF64Ok raw then Except.ok (Value.Float raw)
    else Except.error "invalid float literal"
  | ValueType.Date => Except.ok (Value.Date raw)
  | ValueType.Boolean =>
    match rustParseBool raw with
    | some b => Except.ok (Value.Boolean b)
    | none => Except.error "provided string was not true or false"

/-- The for loop of parse in line.rs: walk the raw values and the schema
fields in lock step, propagating the first coercion error. -/
def parse_values : List String → List FieldSchema → Except String (List Value)
  | [], _ => Except.ok []
  | r :: rs, ss =>
    match parse_raw_field_val r ss.head? with
    | Except.error e => Except.error e
    | Except.ok v =>
      match parse_values rs ss.tail with
      | Except.error e => Except.error e
      | Except.ok vs => Except.ok (v :: vs)

/-- Record decoding from parse in line.rs: the first raw field is the line
code, used for schema lookup and also pushed back as the first value (with
no schema slot, hence decoded as a String); the remaining raw fields are
decoded in lock step with the schema fields. -/
def parse (reg : Registry) (fec_version : String) (raw : List String) :
    Except String Line :=
  match raw with
  | [] => Except.error "No form name"
  | line_code :: rest =>
    match reg fec_version line_code with
    | Except.error e => Except.error e
    | Except.ok form_schema =>
      match parse_raw_field_val line_code none with
      | Except.error e => Except.error e
      | Except.ok first =>
        match parse_values rest form_schema.fields with
        | Except.error e => Except.error e
        | Except.ok values => Except.ok ⟨form_schema, first :: values⟩

end line

/-- Field access by name, from get_value in line.rs: position of the first
schema field with the given name, then an optional index into values, which
may be shorter than the schema. Total by construction. -/
def Line.get_value (l : Line) (field_name : String) : Option Value :=
  match l.schema.fields.findIdx? (fun f => f.name == field_name) with
  | none => none
  | some i => l.values.get? i

namespace parser

/-- A decoded field with its resolved name, from form.rs (Field). -/
structure Field where
  name : String
  value : Value
deriving DecidableEq

/-- A parsed line, from form.rs (FormLine). -/
structure FormLine where
  form_schema : LineSchema
  fields : List Field
deriving DecidableEq

/-- Field coercion from parse_raw_field_val in parser.rs: the raw bytes are
decoded with lossy substitution, then coerced by the declared type of the
schema slot if any (the synthetic extra slot otherwise). -/
def parse_raw_field_val (raw_value : List Nat) (field_schema : Option FieldSchema) :
    Except String Field :=
  let s := codepointsToString (utf8Lossy raw_value)
  let fs := field_schema.getD line.default_field_schema
  match fs.typ with
  | ValueType.String => Except.ok ⟨fs.name, Value.String s⟩
  | ValueType.Integer =>
    match rustParseI64 s with
    | some i => Except.ok ⟨fs.name, Value.Integer i⟩
    | none => Except.error "invalid digit found in string"
  | ValueType.Float =>
    if rustParseF64Ok s then Except.ok ⟨fs.name, Value.Float s⟩
    else Except.error "invalid float literal"
  | ValueType.Date => Except.ok ⟨fs.name, Value.Date s⟩
  | ValueType.Boolean =>
    match rustParseBool s with
    | some b => Except.ok ⟨fs.name, Value.Boolean b⟩
    | none => Except.error "provided string was not true or false"

/-- The for loop of parse_csv_record in parser.rs: walk the raw fields after
the form name and the schema fields in lock step. -/
def parse_values : List (List Nat) → List FieldSchema → Except String (List Field)
  | [], _ => Except.ok []
  | r :: rs, ss =>
    match parse_raw_field_val r ss.head? with
    | Except.error e => Except.error e
    | Except.ok v =>
      match parse_values rs ss.tail with
      | Except.error e => Except.error e
      | Except.ok vs => Except.ok (v :: vs)

/-- Record decoding from parse_csv_record in parser.rs: the first raw field
is converted with the strict UTF-8 conversion (an error fails the record),
used as the schema lookup key, and not pushed back into the decoded fields;
the remaining raw fields are decoded in lock step with the schema fields. -/
def parse_csv_record (reg : Registry) (version : String)
    (record : List (List Nat)) : Except String FormLine :=
  match record with
  | [] => Except.error "No form name"
  | form_name :: record_fields =>
    match utf8Decode form_name with
    | none => Except.error "invalid utf-8 sequence"
    | some cps =>
      match reg version (codepointsToString cps) with
      | Except.error e => Except.error e
      | Except.ok form_schema =>
        match parse_values record_fields form_schema.fields with
        | Except.error e => Except.error e
        | Except.ok fields => Except.ok ⟨form_schema, fields⟩

/-- Split a byte list into fields at each occurrence of the delimiter byte.
Models the tokenizing done by the csv reader configured in RowsParser::new
(flexible rows, no header row); the quoting layer of the csv crate is
immaterial to the claims and is not modelled. -/
def splitBytes (d : Nat) : List Nat → List (List Nat)
  | [] => [[]]
  | b :: bs =>
    let r := splitBytes d bs
    if b = d then [] :: r
    else
      match r with
      | [] => [[b]]
      | f :: fs => (b :: f) :: fs

/-- The body tokenizer, from RowsParser in parser.rs: the format version and
the records of the remaining byte source, each already split into raw byte
fields by the configured delimiter. The delimiter is retained as configured
by RowsParser::new. -/
structure RowsParser where
  version : String
  delim : Nat
  records : List (List (List Nat))
deriving DecidableEq

/-- From RowsParser::new in parser.rs: the delimiter is the unit separator
byte 28 when use_ascii28 is set, the comma byte 44 otherwise; the byte
source (a list of raw record lines here) is tokenized with it. -/
def RowsParser.new (src : List (List Nat)) (version : String)
    (use_ascii28 : Bool) : RowsParser :=
  let delim := if use_ascii28 then 28 else 44
  ⟨version, delim, src.map (splitBytes delim)⟩

/-- From RowsParser::next_line in parser.rs: pop the next raw record, if any,
and decode it; a decode error is returned inside some, leaving the stream
live. -/
def RowsParser.next_line (reg : Registry) (p : RowsParser) :
    Option (Except String FormLine) × RowsParser :=
  match p.records with
  | [] => (none, p)
  | r :: rest => (some (parse_csv_record reg p.version r), ⟨p.version, p.delim, rest⟩)

end parser

/-- Modelled from the spec: header.rs is not in the excerpt. The Header value
produced by the Header Decoder. -/
structure Header where
  fec_version : String
  software_name : String
  software_version : Option String
  report_id : Option String
  report_number : Option String
deriving DecidableEq

/-- The body field separator (dialect). -/
inductive Sep where
  | Comma
  | UnitSeparator
deriving DecidableEq

/-- Modelled from the spec: header.rs is not in the excerpt. Result of header
decoding: the header plus the separator classification, also exposed as the
uses_ascii28 flag consumed by parser.rs. -/
structure HeaderParsing where
  header : Header
  sep : Sep
  uses_ascii28 : Bool
deriving DecidableEq

/-- Modelled from the spec: header parse failures are malformed line shape or
an unknown version token. The panic case models Rust panics (expect and
panic macros) of fec.rs, which are not values of the Rust error type and are
unreachable from reachable orchestrator states. -/
inductive HeaderParseError where
  | malformedShape
  | unknownVersion
  | panic (msg : String)
deriving DecidableEq

/-- Render a header error as a message string, as fec.rs does with to_string
when mapping it into the String error channel. -/
def HeaderParseError.message : HeaderParseError → String
  | HeaderParseError.malformedShape => "malformed header"
  | HeaderParseError.unknownVersion => "unknown fec version"
  | HeaderParseError.panic m => m

/-- Strict natural number from a nonempty digit string. -/
def parseNatStrict (s : String) : Option Nat := digitsToNat s.data

/-- Modelled from the spec: parse a declared version token as a major and
minor number, for classification against the dialect threshold. -/
def parseVersion (s : String) : Option (Nat × Nat) :=
  match splitOnChar '.' s with
  | [a] => (parseNatStrict a).map (fun x => (x, 0))
  | [a, b] =>
    (parseNatStrict a).bind (fun x => (parseNatStrict b).map (fun y => (x, y)))
  | _ => none

/-- Modelled from the spec: the exact version boundary that introduced the
unit-separator dialect is owned by the external format-version table and is
represented here as a configuration constant. -/
def usThreshold : Nat × Nat := (6, 0)

/-- Lexicographic order on major and minor version numbers. -/
def verLE (a b : Nat × Nat) : Bool :=
  Nat.blt a.1 b.1 || (Nat.beq a.1 b.1 && Nat.ble a.2 b.2)

namespace header

/-- Modelled from the spec: header.rs is not in the excerpt. The Header
Decoder consumes exactly the first logical line, splits it on the fixed
micro-format delimiter (a comma here, independent of the body dialect), maps
positional fields to Header members, and classifies the version token:
versions at or above the threshold select the UnitSeparator dialect, earlier
versions select Comma. The remaining lines are returned untouched. -/
def parse_header (src : List String) :
    Except HeaderParseError (HeaderParsing × List String) :=
  match src with
  | [] => Except.error HeaderParseError.malformedShape
  | lineStr :: rest =>
    match splitOnChar ',' lineStr with
    | magic :: ver :: sw :: optFields =>
      if magic = "HDR" then
        match parseVersion ver with
        | none => Except.error HeaderParseError.unknownVersion
        | some v =>
          let a28 := verLE usThreshold v
          Except.ok
            (⟨⟨ver, sw, optFields.get? 0, optFields.get? 1, optFields.get? 2⟩,
              if a28 then Sep.UnitSeparator else Sep.Comma, a28⟩, rest)
      else Except.error HeaderParseError.malformedShape
    | _ => Except.error HeaderParseError.malformedShape

end header

/-- Modelled from the spec: cover.rs is not in the excerpt. The Cover is the
first body record; fec.rs hands parse_cover_record an already schema-decoded
record, so the Cover carries that record. -/
structure Cover where
  record : Line
deriving DecidableEq

/-- Modelled from the spec: cover.rs is not in the excerpt. Conversion of the
already decoded first body record into a Cover; schema lookup and coercion
failures of that record have already been surfaced by the record decoder in
parse_cover of fec.rs before this conversion runs. -/
def parse_cover_record (record : Line) : Except String Cover :=
  Except.ok ⟨record⟩

namespace csv

/-- Modelled from the spec: csv.rs is not in the excerpt. The body tokenizer
owned by FecFile, mirroring RowsParser of parser.rs at the text level: a
dialect-configured tokenizer holding the remaining byte source, decoding
records with the record decoder of line.rs. -/
structure CsvParser where
  version : String
  delim : Char
  records : List (List String)
deriving DecidableEq

/-- Modelled from the spec: construction mirrors RowsParser::new of
parser.rs, with the separator given as a Sep as in fec.rs: the unit
separator control byte 28 for UnitSeparator, the comma for Comma. -/
def CsvParser.new (src : List String) (version : String) (sep : Sep) : CsvParser :=
  let delim := match sep with
    | Sep.UnitSeparator => Char.ofNat 28
    | Sep.Comma => ','
  ⟨version, delim, src.map (fun l => splitOnChar delim l)⟩

/-- Modelled from the spec: mirrors RowsParser::next_line of parser.rs; pop
the next tokenized record, if any, and decode it with the line.rs decoder. -/
def CsvParser.next_record (reg : Registry) (p : CsvParser) :
    Option (Except String Line) × CsvParser :=
  match p.records with
  | [] => (none, p)
  | r :: rest => (some (line.parse reg p.version r), ⟨p.version, p.delim, rest⟩)

end csv

/-- The FEC file orchestrator, from fec.rs (FecFile). The byte source is
modelled as the list of remaining logical lines; every field matches a field
of the Rust struct. -/
structure FecFile where
  reader : Option (List String)
  header : Option Header
  cover : Option Cover
  sep : Option Sep
  csvParser : Option csv.CsvParser
deriving DecidableEq

/-- From FecFile::from_reader in fec.rs. -/
def FecFile.from_reader (r : List String) : FecFile :=
  ⟨some r, none, none, none, none⟩

/-- From FecFile::parse_header in fec.rs: memoized; on first success the
header and separator are cached and the header line is consumed from the
reader. The Rust panic on a missing reader is modelled as a distinguished
error value. -/
def FecFile.parse_header (s : FecFile) : Except HeaderParseError Unit × FecFile :=
  if s.header.isSome then (Except.ok (), s)
  else
    match s.reader with
    | none => (Except.error (HeaderParseError.panic "No reader"), s)
    | some rdr =>
      match header.parse_header rdr with
      | Except.error e => (Except.error e, s)
      | Except.ok (hp, rest) =>
        (Except.ok (),
          { s with reader := some rest, header := some hp.header, sep := some hp.sep })

/-- From FecFile::get_header in fec.rs: ensure the header is parsed, then
return the cached value. -/
def FecFile.get_header (s : FecFile) : Except HeaderParseError Header × FecFile :=
  match s.parse_header with
  | (Except.error e, s') => (Except.error e, s')
  | (Except.ok _, s') =>
    match s'.header with
    | some h => (Except.ok h, s')
    | none => (Except.error (HeaderParseError.panic "header should be set"), s')

/-- From FecFile::makeCsvParser in fec.rs: memoized; on first run the
header is parsed if needed and the remaining byte source is moved, one time,
out of the reader field and into the csv parser. -/
def FecFile.makeCsvParser (s : FecFile) : Except String Unit × FecFile :=
  if s.csvParser.isSome then (Except.ok (), s)
  else
    match s.parse_header with
    | (Except.error e, s') => (Except.error e.message, s')
    | (Except.ok _, s') =>
      match s'.header, s'.sep with
      | some h, some sp =>
        match s'.reader with
        | none => (Except.error "No reader", s')
        | some rdr =>
          (Except.ok (),
            { s' with reader := none,
                      csvParser := some (csv.CsvParser.new rdr h.fec_version sp) })
      | _, _ => (Except.error "panic: expected header and sep", s')

/-- From FecFile::parse_cover in fec.rs: memoized; on first run the csv
parser is built if needed, the first body record is pulled and decoded, and
the cover is cached. Rust panics (expect) are modelled as error values. -/
def FecFile.parse_cover (reg : Registry) (s : FecFile) : Except String Unit × FecFile :=
  if s.cover.isSome then (Except.ok (), s)
  else
    match s.makeCsvParser with
    | (Except.error e, s') => (Except.error e, s')
    | (Except.ok _, s') =>
      match s'.csvParser with
      | none => (Except.error "No row parser", s')
      | some p =>
        match csv.CsvParser.next_record reg p with
        | (none, p') => (Except.error "No cover line", { s' with csvParser := some p' })
        | (some (Except.error e), p') =>
          (Except.error e, { s' with csvParser := some p' })
        | (some (Except.ok record), p') =>
          match parse_cover_record record with
          | Except.error e => (Except.error e, { s' with csvParser := some p' })
          | Except.ok c =>
            (Except.ok (), { s' with cover := some c, csvParser := some p' })

/-- From FecFile::get_cover in fec.rs. -/
def FecFile.get_cover (reg : Registry) (s : FecFile) : Except String Cover × FecFile :=
  match s.parse_cover reg with
  | (Except.error e, s') => (Except.error e, s')
  | (Except.ok _, s') =>
    match s'.cover with
    | some c => (Except.ok c, s')
    | none => (Except.error "cover should be set", s')

/-- From FecFile::next_record in fec.rs: ensure the cover is parsed, then
pull and decode the next record from the csv parser. The outer error channel
carries header and cover failures; a per-record decode failure is returned
inside some, leaving the stream live. -/
def FecFile.next_record (reg : Registry) (s : FecFile) :
    Except String (Option (Except String Line)) × FecFile :=
  match s.parse_cover reg with
  | (Except.error e, s') => (Except.error e, s')
  | (Except.ok _, s') =>
    match s'.csvParser with
    | none => (Except.error "No row parser", s')
    | some p =>
      match csv.CsvParser.next_record reg p with
      | (r, p') => (Except.ok r, { s' with csvParser := some p' })


/-! Helper facts about list indexing used by the lock-step decoding lemmas. -/

lemma get?_zero_eq_head? {α : Type} (l : List α) : l.get? 0 = l.head? := by
  cases l <;> rfl

lemma tail_get? {α : Type} (l : List α) (i : Nat) : l.tail.get? i = l.get? (i + 1) := by
  cases l <;> rfl

lemma tail_length_le {α : Type} (l : List α) (i : Nat) (h : l.length ≤ i + 1) :
    l.tail.length ≤ i := by
  cases l with
  | nil => simp
  | cons a t => simp at h ⊢; omega

/-- An Except that is ok holds a value. -/
lemma isOk_exists {ε α : Type} (e : Except ε α) (h : e.isOk = true) :
    ∃ a, e = Except.ok a := by
  cases e with
  | error _ => simp [Except.isOk, Except.toBool] at h
  | ok a => exact ⟨a, rfl⟩

/-- Lock-step decoding of the raw values after the line code (the for loop of
parse in line.rs) succeeds whenever every slot coercion succeeds, produces
exactly one value per raw field, and decodes every surplus raw field (beyond
the schema) as a String via the synthetic extra slot. -/
lemma parse_values_ok (rs : List String) : ∀ ss : List FieldSchema,
    (∀ i r', rs.get? i = some r' →
      (line.parse_raw_field_val r' (ss.get? i)).isOk = true) →
    ∃ vs, line.parse_values rs ss = Except.ok vs ∧ vs.length = rs.length ∧
      (∀ i r', ss.length ≤ i → rs.get? i = some r' →
        vs.get? i = some (Value.String r')) := by
  induction rs with
  | nil =>
    intro ss _
    exact ⟨[], rfl, rfl, fun i r' _ h => Option.noConfusion h⟩
  | cons r rs ih =>
    intro ss h
    have h0 : (line.parse_raw_field_val r ss.head?).isOk = true := by
      have := h 0 r rfl
      rwa [get?_zero_eq_head?] at this
    obtain ⟨v, hv⟩ := isOk_exists _ h0
    have hrest : ∀ i r', rs.get? i = some r' →
        (line.parse_raw_field_val r' (ss.tail.get? i)).isOk = true := by
      intro i r' hi
      rw [tail_get?]
      exact h (i + 1) r' hi
    obtain ⟨vs, hvs, hlen, hextra⟩ := ih ss.tail hrest
    refine ⟨v :: vs, ?_, by simp [hlen], ?_⟩
    · simp only [line.parse_values, hv, hvs]
    · intro i r' hle hi
      cases i with
      | zero =>
        have hs : ss = [] := by
          cases ss with
          | nil => rfl
          | cons a t => simp at hle
        subst hs
        have : r = r' := by injection hi
        subst this
        have : v = Value.String r := by
          have : line.parse_raw_field_val r ([] : List FieldSchema).head? =
              Except.ok (Value.String r) := rfl
          rw [this] at hv
          injection hv with h2
          exact h2.symm
        simp [this]
      | succ i =>
        have := hextra i r' (tail_length_le ss i hle) hi
        simpa using this

/-- Lock-step decoding of the raw byte fields after the form name (the for
loop of parse_csv_record in parser.rs) succeeds whenever every slot coercion
succeeds, with one decoded field per raw field. -/
lemma parser_parse_values_ok (rs : List (List Nat)) : ∀ ss : List FieldSchema,
    (∀ i r', rs.get? i = some r' →
      (parser.parse_raw_field_val r' (ss.get? i)).isOk = true) →
    ∃ vs, parser.parse_values rs ss = Except.ok vs ∧ vs.length = rs.length := by
  induction rs with
  | nil => exact fun ss _ => ⟨[], rfl, rfl⟩
  | cons r rs ih =>
    intro ss h
    have h0 : (parser.parse_raw_field_val r ss.head?).isOk = true := by
      have := h 0 r rfl
      rwa [get?_zero_eq_head?] at this
    obtain ⟨v, hv⟩ := isOk_exists _ h0
    have hrest : ∀ i r', rs.get? i = some r' →
        (parser.parse_raw_field_val r' (ss.tail.get? i)).isOk = true := by
      intro i r' hi
      rw [tail_get?]
      exact h (i + 1) r' hi
    obtain ⟨vs, hvs, hlen⟩ := ih ss.tail hrest
    exact ⟨v :: vs, by simp only [parser.parse_values, hv, hvs], by simp [hlen]⟩

/-! Concrete registries used by counterexamples and witnesses. -/

/-- A registry with one known code X declaring two String fields. -/
def regWide : Registry := fun _v c =>
  if c = "X" then
    Except.ok ⟨"X", [⟨"a", ValueType.String⟩, ⟨"b", ValueType.String⟩]⟩
  else Except.error "Schema not found"

/-- A registry that knows every code, with an empty field list, so that
schema lookup and field coercion can never fail. -/
def regAll : Registry := fun _v c => Except.ok ⟨c, []⟩

/-- A registry with one known code F3 declaring one Integer field. -/
def regF3 : Registry := fun _v c =>
  if c = "F3" then Except.ok ⟨"F3", [⟨"amount", ValueType.Integer⟩]⟩
  else Except.error "Schema not found"

/-- C1: the claim says the first raw field (the type code) is used as the
schema lookup key and also stored back as the first decoded value. The
record decoder of line.rs does both, but parse_csv_record of parser.rs uses
the type code only as the lookup key and omits it from the decoded fields,
contradicting the spec sentence that all implementations must treat it as
both. This theorem evaluates both decoders at the same one-column record:
the parser.rs result starts with the decoding of raw field two, while the
line.rs result starts with the type code. -/
theorem claim_c1_type_code_dropped :
    parser.parse_csv_record regWide "8.0" [[88], [49]] =
      Except.ok ⟨⟨"X", [⟨"a", ValueType.String⟩, ⟨"b", ValueType.String⟩]⟩,
        [⟨"a", Value.String "1"⟩]⟩ ∧
    line.parse regWide "8.0" ["X", "1"] =
      Except.ok ⟨⟨"X", [⟨"a", ValueType.String⟩, ⟨"b", ValueType.String⟩]⟩,
        [Value.String "X", Value.String "1"]⟩ := by
  exact ⟨by decide, by decide⟩

/-- C2: record decoding never fails solely because of a field-count mismatch.
Given a known schema for the type code and raw fields that all pass the slot
coercion, line.rs parse succeeds; the decoded record has exactly one value
per raw field present (the type code included, no filler values), and every
surplus raw field beyond the schema is decoded as a String through the
synthetic extra slot. -/
theorem claim_c2_width_tolerance (reg : Registry) (v code : String)
    (rest : List String) (schema : LineSchema)
    (hreg : reg v code = Except.ok schema)
    (hco : ∀ i r', rest.get? i = some r' →
      (line.parse_raw_field_val r' (schema.fields.get? i)).isOk = true) :
    ∃ l, line.parse reg v (code :: rest) = Except.ok l ∧
      l.schema = schema ∧
      l.values.length = (code :: rest).length ∧
      (∀ i r', schema.fields.length ≤ i → rest.get? i = some r' →
        l.values.get? (i + 1) = some (Value.String r')) := by
  obtain ⟨vs, hvs, hlen, hextra⟩ := parse_values_ok rest schema.fields hco
  refine ⟨⟨schema, Value.String code :: vs⟩, ?_, rfl, by simp [hlen], ?_⟩
  · simp only [line.parse, hreg, hvs]
    rfl
  · intro i r' hle hi
    simpa using hextra i r' hle hi

/-- Witness for C2 at a concrete input: schema X declares two String fields,
the raw record has a type code and three raw fields; decoding succeeds with
four values and the surplus third raw field is decoded as a String. -/
theorem claim_c2_witness :
    ∃ l, line.parse regWide "8.0" ["X", "u", "v", "w"] = Except.ok l ∧
      l.schema = ⟨"X", [⟨"a", ValueType.String⟩, ⟨"b", ValueType.String⟩]⟩ ∧
      l.values.length = 4 ∧
      (∀ i r', 2 ≤ i → ["u", "v", "w"].get? i = some r' →
        l.values.get? (i + 1) = some (Value.String r')) := by
  have h := claim_c2_width_tolerance regWide "8.0" "X" ["u", "v", "w"]
    ⟨"X", [⟨"a", ValueType.String⟩, ⟨"b", ValueType.String⟩]⟩
    (by decide)
    (by
      intro i r' hi
      cases i with
      | zero => injection hi with h2; subst h2; decide
      | succ n =>
        cases n with
        | zero => injection hi with h2; subst h2; decide
        | succ m =>
          cases m with
          | zero => injection hi with h2; subst h2; decide
          | succ k => exact Option.noConfusion hi)
  exact h

/-- C3: per-field coercion by declared type, for the field coercion of
line.rs. String and Date pass the text through unchanged (no calendar
validation); Integer and Float succeed exactly when the modelled Rust
numeric parser accepts the text, and otherwise return an error value (the
function is total, so no panic is possible); Boolean succeeds exactly on
the two canonical tokens. The error propagates through the parse loop and
fails the whole record. -/
theorem claim_c3_field_coercion (raw : String) (fs : Option FieldSchema) :
    ((fs.getD line.default_field_schema).typ = ValueType.String →
      line.parse_raw_field_val raw fs = Except.ok (Value.String raw)) ∧
    ((fs.getD line.default_field_schema).typ = ValueType.Date →
      line.parse_raw_field_val raw fs = Except.ok (Value.Date raw)) ∧
    ((fs.getD line.default_field_schema).typ = ValueType.Integer →
      ((line.parse_raw_field_val raw fs).isOk = true ↔
        (rustParseI64 raw).isSome = true)) ∧
    ((fs.getD line.default_field_schema).typ = ValueType.Float →
      ((line.parse_raw_field_val raw fs).isOk = true ↔ rustParseF64Ok raw = true)) ∧
    ((fs.getD line.default_field_schema).typ = ValueType.Boolean →
      ((line.parse_raw_field_val raw fs).isOk = true ↔
        (raw = "true" ∨ raw = "false"))) := by
  refine ⟨?_, ?_, ?_, ?_, ?_⟩ <;> intro ht
  · simp [line.parse_raw_field_val, ht]
  · simp [line.parse_raw_field_val, ht]
  · cases h : rustParseI64 raw <;>
      simp [line.parse_raw_field_val, ht, h, Except.isOk, Except.toBool]
  · by_cases h : rustParseF64Ok raw = true <;>
      simp [line.parse_raw_field_val, ht, h, Except.isOk, Except.toBool]
  · by_cases h1 : raw = "true"
    · simp [line.parse_raw_field_val, ht, rustParseBool, h1, Except.isOk, Except.toBool]
    · by_cases h2 : raw = "false" <;>
        simp [line.parse_raw_field_val, ht, rustParseBool, h1, h2,
          Except.isOk, Except.toBool]

/-- Witness for C3 at a concrete input: an Integer slot on the text 12
succeeds. -/
theorem claim_c3_witness :
    (line.parse_raw_field_val "12" (some ⟨"amount", ValueType.Integer⟩)).isOk = true :=
  ((claim_c3_field_coercion "12" (some ⟨"amount", ValueType.Integer⟩)).2.2.1
    rfl).mpr (by decide)

/-- C8 counterexample: the claim says no record decode returns Err solely
because bytes of a field are not valid text. In parse_csv_record of
parser.rs the first field (the type code) is converted with the strict
UTF-8 conversion, so the byte 255 there fails the record even under a
registry that knows every code and schemas that cannot fail coercion,
while the same record with a valid first field succeeds. -/
theorem claim_c8_counterexample :
    (parser.parse_csv_record regAll "8.0" [[255], [49]]).isOk = false ∧
    (parser.parse_csv_record regAll "8.0" [[70], [49]]).isOk = true := by
  exact ⟨by decide, by decide⟩

/-- C8 amended: invalid text in any field after the first never fails a
record; those fields are decoded with lossy substitution, and only their
coerced result matters. A record whose first field (the type code) is not
valid UTF-8 fails with Err for that record. -/
theorem claim_c8_amended :
    (∀ (reg : Registry) (v : String) (fname : List Nat) (rest : List (List Nat))
      (schema : LineSchema) (cps : List Nat),
      utf8Decode fname = some cps →
      reg v (codepointsToString cps) = Except.ok schema →
      (∀ i r', rest.get? i = some r' →
        (parser.parse_raw_field_val r' (schema.fields.get? i)).isOk = true) →
      (parser.parse_csv_record reg v (fname :: rest)).isOk = true) ∧
    (∀ (reg : Registry) (v : String) (fname : List Nat) (rest : List (List Nat)),
      utf8Decode fname = none →
      parser.parse_csv_record reg v (fname :: rest) =
        Except.error "invalid utf-8 sequence") := by
  constructor
  · intro reg v fname rest schema cps hdec hreg hco
    obtain ⟨vs, hvs, _⟩ := parser_parse_values_ok rest schema.fields hco
    simp [parser.parse_csv_record, hdec, hreg, hvs, Except.isOk, Except.toBool]
  · intro reg v fname rest hdec
    simp [parser.parse_csv_record, hdec]

/-- Witness for C8 at a concrete input: a record whose second field is the
invalid byte 255 still decodes, because that field is lossily decoded. -/
theorem claim_c8_witness :
    (parser.parse_csv_record regAll "8.0" [[70], [255]]).isOk = true := by
  refine claim_c8_amended.1 regAll "8.0" [70] [[255]] ⟨"F", []⟩ [70]
    (by decide) (by decide) ?_
  intro i r' hi
  cases i with
  | zero => injection hi with h2; subst h2; decide
  | succ n => exact Option.noConfusion hi

/-- C10: get_value is total and never panics: when the name does not occur
in the schema the result is none; when its first occurrence is at schema
position i, the result is none if i is at or beyond the end of the possibly
shorter values list, and otherwise the value at position i. -/
theorem claim_c10_get_value_total (l : Line) (name : String) :
    ((∀ f, f ∈ l.schema.fields → f.name ≠ name) → l.get_value name = none) ∧
    (∀ i, (hi : i < l.schema.fields.length) →
      (l.schema.fields.get ⟨i, hi⟩).name = name →
      (∀ j, (hj : j < i) → (l.schema.fields.get ⟨j, Nat.lt_trans hj hi⟩).name ≠ name) →
      ((l.values.length ≤ i → l.get_value name = none) ∧
       (∀ h : i < l.values.length,
         l.get_value name = some (l.values.get ⟨i, h⟩)))) := by
  constructor
  · intro habs
    have hnone : l.schema.fields.findIdx? (fun f => f.name == name) = none := by
      rw [List.findIdx?_eq_none_iff]
      intro f hf
      simpa using habs f hf
    simp [Line.get_value, hnone]
  · intro i hi hname hfirst
    have hsome : l.schema.fields.findIdx? (fun f => f.name == name) = some i := by
      rw [List.findIdx?_eq_some_iff_getElem]
      refine ⟨hi, by simpa using hname, ?_⟩
      intro j hj
      simpa using hfirst j hj
    constructor
    · intro hlen
      have hv : l.values.get? i = none := List.get?_eq_none.mpr hlen
      simp only [Line.get_value, hsome]
      exact hv
    · intro h
      have hv : l.values.get? i = some (l.values.get ⟨i, h⟩) := List.get?_eq_get h
      simp only [Line.get_value, hsome]
      exact hv

/-- Witness for C10 at a concrete input: the name b sits at schema position
one, the values list has length one, so get_value returns none. -/
theorem claim_c10_witness :
    Line.get_value ⟨⟨"X", [⟨"a", ValueType.String⟩, ⟨"b", ValueType.String⟩]⟩,
      [Value.String "x"]⟩ "b" = none := by
  refine ((claim_c10_get_value_total
    ⟨⟨"X", [⟨"a", ValueType.String⟩, ⟨"b", ValueType.String⟩]⟩,
      [Value.String "x"]⟩ "b").2 1 (by decide) (by decide) ?_).1 (by decide)
  intro j hj
  have hj0 : j = 0 := by omega
  subst hj0
  show ("a" : String) ≠ "b"
  decide



/-! Supporting lemmas about the orchestrator state machine. -/

/-- The invariant of C9: the byte source is never held by the orchestrator
and the tokenizer at the same time. -/
def StateInv (s : FecFile) : Prop :=
  ¬(s.reader.isSome = true ∧ s.csvParser.isSome = true)

/-- parse_header never touches the csv parser and never changes whether the
orchestrator holds the reader. -/
lemma parse_header_snd (s : FecFile) :
    (s.parse_header).2.csvParser = s.csvParser ∧
    (s.parse_header).2.reader.isSome = s.reader.isSome := by
  by_cases hh : s.header.isSome = true
  · simp [FecFile.parse_header, hh]
  · cases hr : s.reader with
    | none => simp [FecFile.parse_header, hh, hr]
    | some rdr =>
      cases hph : header.parse_header rdr with
      | error e => simp [FecFile.parse_header, hh, hr, hph]
      | ok pr =>
        cases pr with
        | mk hp rest => simp [FecFile.parse_header, hh, hr, hph]

/-- get_header changes the state exactly as parse_header does. -/
lemma get_header_snd (s : FecFile) :
    (FecFile.get_header s).2 = (s.parse_header).2 := by
  cases hp : s.parse_header with
  | mk res s' =>
    cases res with
    | error e => simp [FecFile.get_header, hp]
    | ok u => cases hh : s'.header <;> simp [FecFile.get_header, hp, hh]

/-- get_cover changes the state exactly as parse_cover does. -/
lemma get_cover_snd (reg : Registry) (s : FecFile) :
    (FecFile.get_cover reg s).2 = (s.parse_cover reg).2 := by
  cases hp : s.parse_cover reg with
  | mk res s' =>
    cases res with
    | error e => simp [FecFile.get_cover, hp]
    | ok u => cases hh : s'.cover <;> simp [FecFile.get_cover, hp, hh]

/-- Once the csv parser exists, makeCsvParser is a memoized no-op: the
one-time move of the byte source is never performed a second time. -/
lemma makeCsvParser_memo (s : FecFile) (hcp : s.csvParser.isSome = true) :
    s.makeCsvParser = (Except.ok (), s) := by
  simp [FecFile.makeCsvParser, hcp]

/-- makeCsvParser preserves the single-owner invariant: when it builds the
parser it simultaneously clears the reader. -/
lemma makeCsvParser_inv (s : FecFile) (hInv : StateInv s) :
    StateInv (s.makeCsvParser).2 := by
  by_cases hcp : s.csvParser.isSome = true
  · rw [makeCsvParser_memo s hcp]
    exact hInv
  · cases hp : s.parse_header with
    | mk res s' =>
      have hsnd : (s.parse_header).2.csvParser = s.csvParser ∧
          (s.parse_header).2.reader.isSome = s.reader.isSome := parse_header_snd s
      rw [hp] at hsnd
      have hcp' : s'.csvParser.isSome = false := by
        rw [hsnd.1]
        simpa using hcp
      cases res with
      | error e =>
        simp only [FecFile.makeCsvParser, hcp, hp]
        simp [StateInv, hcp']
      | ok u =>
        cases hhd : s'.header with
        | none =>
          simp only [FecFile.makeCsvParser, hcp, hp]
          cases hsp : s'.sep <;> simp [StateInv, hhd, hsp, hcp']
        | some hd =>
          cases hsp : s'.sep with
          | none =>
            simp only [FecFile.makeCsvParser, hcp, hp]
            simp [StateInv, hhd, hsp, hcp']
          | some sp =>
            cases hr : s'.reader with
            | none =>
              simp only [FecFile.makeCsvParser, hcp, hp]
              simp [StateInv, hhd, hsp, hr, hcp']
            | some rdr =>
              simp only [FecFile.makeCsvParser, hcp, hp]
              simp [StateInv, hhd, hsp, hr]

/-- parse_cover preserves the single-owner invariant. -/
lemma parse_cover_inv (reg : Registry) (s : FecFile) (hInv : StateInv s) :
    StateInv (s.parse_cover reg).2 := by
  by_cases hcv : s.cover.isSome = true
  · simp only [FecFile.parse_cover, hcv, if_pos]
    simpa using hInv
  · cases hm : s.makeCsvParser with
    | mk mres s' =>
      have hInv' : StateInv s' := by
        have := makeCsvParser_inv s hInv
        rwa [hm] at this
      cases mres with
      | error e =>
        simp only [FecFile.parse_cover, hcv, hm]
        simpa using hInv'
      | ok u =>
        cases hcp : s'.csvParser with
        | none =>
          simp only [FecFile.parse_cover, hcv, hm, hcp]
          simpa using hInv'
        | some p =>
          have hrd : s'.reader.isSome = false := by
            by_cases hr : s'.reader.isSome = true
            · exact absurd ⟨hr, by simp [hcp]⟩ hInv'
            · simpa using hr
          cases hnr : csv.CsvParser.next_record reg p with
          | mk r p' =>
            cases r with
            | none =>
              simp [FecFile.parse_cover, hcv, hm, hcp, hnr, StateInv, hrd]
            | some rr =>
              cases rr with
              | error e =>
                simp [FecFile.parse_cover, hcv, hm, hcp, hnr, StateInv, hrd]
              | ok record =>
                simp [FecFile.parse_cover, hcv, hm, hcp, hnr, parse_cover_record,
                  StateInv, hrd]

/-- next_record preserves the single-owner invariant. -/
lemma next_record_inv (reg : Registry) (s : FecFile) (hInv : StateInv s) :
    StateInv (FecFile.next_record reg s).2 := by
  cases hp : s.parse_cover reg with
  | mk res s' =>
    have hInv' : StateInv s' := by
      have := parse_cover_inv reg s hInv
      rwa [hp] at this
    cases res with
    | error e =>
      simp only [FecFile.next_record, hp]
      simpa using hInv'
    | ok u =>
      cases hcp : s'.csvParser with
      | none =>
        simp only [FecFile.next_record, hp, hcp]
        simpa using hInv'
      | some p =>
        have hrd : s'.reader.isSome = false := by
          by_cases hr : s'.reader.isSome = true
          · exact absurd ⟨hr, by simp [hcp]⟩ hInv'
          · simpa using hr
        cases hnr : csv.CsvParser.next_record reg p with
        | mk r p' => simp [FecFile.next_record, hp, hcp, hnr, StateInv, hrd]

/-- The states of a FecFile reachable through its public operations, from a
fresh from_reader state. -/
inductive Reachable : FecFile → Prop where
  | base (r : List String) : Reachable (FecFile.from_reader r)
  | hstep (s : FecFile) : Reachable s → Reachable (FecFile.get_header s).2
  | cstep (reg : Registry) (s : FecFile) : Reachable s →
      Reachable (FecFile.get_cover reg s).2
  | rstep (reg : Registry) (s : FecFile) : Reachable s →
      Reachable (FecFile.next_record reg s).2

/-- C9: in every reachable state the byte source has a single owner, never
both the orchestrator reader field and the tokenizer; once the tokenizer
exists the orchestrator no longer holds the source, and the move is never
performed a second time (makeCsvParser is a no-op from then on). -/
theorem claim_c9_single_owner (s : FecFile) (hs : Reachable s) :
    StateInv s ∧
    (s.csvParser.isSome = true →
      s.reader.isSome = false ∧ s.makeCsvParser = (Except.ok (), s)) := by
  have hInv : StateInv s := by
    induction hs with
    | base r => simp [StateInv, FecFile.from_reader]
    | hstep s hr ih =>
      rw [get_header_snd]
      intro hand
      obtain ⟨hsnd1, hsnd2⟩ := parse_header_snd s
      exact ih ⟨by rw [hsnd2] at hand; exact hand.1,
        by rw [hsnd1] at hand; exact hand.2⟩
    | cstep reg s hr ih =>
      rw [get_cover_snd]
      exact parse_cover_inv reg s ih
    | rstep reg s hr ih =>
      exact next_record_inv reg s ih
  refine ⟨hInv, fun hcp => ⟨?_, makeCsvParser_memo s hcp⟩⟩
  by_cases hr : s.reader.isSome = true
  · exact absurd ⟨hr, hcp⟩ hInv
  · simpa using hr

/-- A file with a pre-threshold header and one body line, used by several
orchestrator witnesses. -/
def f4 : FecFile := FecFile.from_reader ["HDR,5.0,sw", "F3,12"]

/-- Witness for C9 at a concrete reachable state: after one next_record call
on f4 the tokenizer owns the source and the orchestrator does not. -/
theorem claim_c9_witness :
    StateInv (FecFile.next_record regF3 f4).2 ∧
    ((FecFile.next_record regF3 f4).2.csvParser.isSome = true →
      (FecFile.next_record regF3 f4).2.reader.isSome = false ∧
      (FecFile.next_record regF3 f4).2.makeCsvParser =
        (Except.ok (), (FecFile.next_record regF3 f4).2)) :=
  claim_c9_single_owner _
    (Reachable.rstep regF3 f4 (Reachable.base ["HDR,5.0,sw", "F3,12"]))


/-- A successful parse_cover leaves a cached cover in the state. -/
lemma parse_cover_ok_cover (reg : Registry) (s s₁ : FecFile)
    (h : s.parse_cover reg = (Except.ok (), s₁)) : s₁.cover.isSome = true := by
  by_cases hcv : s.cover.isSome = true
  · simp only [FecFile.parse_cover, hcv, if_pos] at h
    have h2 : s = s₁ := by
      have := congrArg Prod.snd h
      simpa using this
    rw [← h2]
    exact hcv
  · cases hm : s.makeCsvParser with
    | mk mres s' =>
      cases mres with
      | error e => simp [FecFile.parse_cover, hcv, hm] at h
      | ok u =>
        cases hcp : s'.csvParser with
        | none => simp [FecFile.parse_cover, hcv, hm, hcp] at h
        | some p =>
          cases hnr : csv.CsvParser.next_record reg p with
          | mk r p' =>
            cases r with
            | none => simp [FecFile.parse_cover, hcv, hm, hcp, hnr] at h
            | some rr =>
              cases rr with
              | error e => simp [FecFile.parse_cover, hcv, hm, hcp, hnr] at h
              | ok record =>
                simp only [FecFile.parse_cover, hcv, hm, hcp, hnr,
                  parse_cover_record] at h
                have h2 := congrArg Prod.snd h
                simp at h2
                rw [← h2]
                simp

/-- When next_record signals end of stream, the resulting state has a cached
cover and a tokenizer whose record list is exhausted. -/
lemma next_record_none_state (reg : Registry) (s s₁ : FecFile)
    (h : FecFile.next_record reg s = (Except.ok none, s₁)) :
    s₁.cover.isSome = true ∧ ∃ ver d, s₁.csvParser = some ⟨ver, d, []⟩ := by
  cases hp : s.parse_cover reg with
  | mk res s' =>
    cases res with
    | error e => simp [FecFile.next_record, hp] at h
    | ok u =>
      cases u
      cases hcp : s'.csvParser with
      | none => simp [FecFile.next_record, hp, hcp] at h
      | some p =>
        cases hrec : p.records with
        | cons r rest =>
          have hnr : csv.CsvParser.next_record reg p =
              (some (line.parse reg p.version r), ⟨p.version, p.delim, rest⟩) := by
            simp [csv.CsvParser.next_record, hrec]
          simp [FecFile.next_record, hp, hcp, hnr] at h
        | nil =>
          have hnr : csv.CsvParser.next_record reg p = (none, p) := by
            simp [csv.CsvParser.next_record, hrec]
          simp only [FecFile.next_record, hp, hcp, hnr] at h
          have h2 := congrArg Prod.snd h
          simp at h2
          have hcov := parse_cover_ok_cover reg s s' hp
          constructor
          · rw [← h2]
            exact hcov
          · refine ⟨p.version, p.delim, ?_⟩
            rw [← h2]
            simp [hrec]
            exact hrec ▸ rfl

/-- C4: end of stream is terminal: once next_record returns the
end-of-sequence result, every later call also returns it, with the state
unchanged. -/
theorem claim_c4_none_terminal (reg : Registry) (s s' : FecFile)
    (h : FecFile.next_record reg s = (Except.ok none, s')) :
    FecFile.next_record reg s' = (Except.ok none, s') := by
  obtain ⟨hcov, ver, d, hcp⟩ := next_record_none_state reg s s' h
  cases s' with
  | mk rd hd cv sp cp =>
    have hcv : cv.isSome = true := hcov
    have hcp2 : cp = some ⟨ver, d, []⟩ := hcp
    subst hcp2
    simp [FecFile.next_record, FecFile.parse_cover, hcv, csv.CsvParser.next_record]

/-- Witness for C4: on the concrete file f4 the first next_record call
consumes the cover and immediately reports end of stream; the theorem then
gives that the following call reports it again. -/
theorem claim_c4_witness :
    FecFile.next_record regF3 (FecFile.next_record regF3 f4).2 =
      (Except.ok none, (FecFile.next_record regF3 f4).2) :=
  claim_c4_none_terminal regF3 f4 _ (by decide)

/-- C5: a decode failure of one body record does not terminate the stream:
with the cover already parsed and the tokenizer holding a malformed record
followed by a well-formed one, the first next_record call returns the Err
for that record only and the following call yields the next record. -/
theorem claim_c5_error_not_terminal (reg : Registry) (s : FecFile)
    (ver : String) (d : Char) (r1 r2 : List String) (rest : List (List String))
    (e : String) (rec : Line)
    (hcov : s.cover.isSome = true)
    (hcp : s.csvParser = some ⟨ver, d, r1 :: r2 :: rest⟩)
    (h1 : line.parse reg ver r1 = Except.error e)
    (h2 : line.parse reg ver r2 = Except.ok rec) :
    ∃ s₁ s₂, FecFile.next_record reg s = (Except.ok (some (Except.error e)), s₁) ∧
      FecFile.next_record reg s₁ = (Except.ok (some (Except.ok rec)), s₂) := by
  cases s with
  | mk rd hd cv sp cp =>
    have hcv : cv.isSome = true := hcov
    have hcp2 : cp = some ⟨ver, d, r1 :: r2 :: rest⟩ := hcp
    subst hcp2
    refine ⟨⟨rd, hd, cv, sp, some ⟨ver, d, r2 :: rest⟩⟩,
      ⟨rd, hd, cv, sp, some ⟨ver, d, rest⟩⟩, ?_, ?_⟩
    · simp [FecFile.next_record, FecFile.parse_cover, hcv,
        csv.CsvParser.next_record, h1]
    · simp [FecFile.next_record, FecFile.parse_cover, hcv,
        csv.CsvParser.next_record, h2]

/-- A header used by concrete orchestrator states. -/
def hdr50 : Header := ⟨"5.0", "sw", none, none, none⟩

/-- A cover used by concrete orchestrator states. -/
def cover0 : Cover :=
  ⟨⟨⟨"F3", [⟨"amount", ValueType.Integer⟩]⟩, [Value.String "F3", Value.Integer 12]⟩⟩

/-- A state whose cover is parsed and whose tokenizer holds one malformed
record (unknown code ZZ) followed by one well-formed record. -/
def fC5 : FecFile :=
  ⟨none, some hdr50, some cover0, some Sep.Comma,
    some ⟨"5.0", ',', [["ZZ", "1"], ["F3", "12"]]⟩⟩

/-- Witness for C5 at the concrete state fC5: the registry miss on ZZ yields
an Err for that record only, and the next call decodes the F3 record. -/
theorem claim_c5_witness :
    ∃ s₁ s₂, FecFile.next_record regF3 fC5 =
        (Except.ok (some (Except.error "Schema not found")), s₁) ∧
      FecFile.next_record regF3 s₁ =
        (Except.ok (some (Except.ok ⟨⟨"F3", [⟨"amount", ValueType.Integer⟩]⟩,
          [Value.String "F3", Value.Integer 12]⟩)), s₂) :=
  claim_c5_error_not_terminal regF3 fC5 "5.0" ',' ["ZZ", "1"] ["F3", "12"] []
    "Schema not found" ⟨⟨"F3", [⟨"amount", ValueType.Integer⟩]⟩,
      [Value.String "F3", Value.Integer 12]⟩
    (by decide) (by decide) (by decide) (by decide)

/-- C6: get_header is idempotent and memoized: after a successful call the
header is cached, and a repeated call returns the identical header and
leaves the whole state (the byte source position included) unchanged, so no
further reads happen. -/
theorem claim_c6_get_header_memoized (s s' : FecFile) (h : Header)
    (hc : FecFile.get_header s = (Except.ok h, s')) :
    s'.header = some h ∧ FecFile.get_header s' = (Except.ok h, s') := by
  cases hp : s.parse_header with
  | mk res s₁ =>
    cases res with
    | error e => simp [FecFile.get_header, hp] at hc
    | ok u =>
      cases u
      cases hh : s₁.header with
      | none => simp [FecFile.get_header, hp, hh] at hc
      | some h₁ =>
        simp only [FecFile.get_header, hp, hh] at hc
        rw [Prod.mk.injEq] at hc
        obtain ⟨hc1, hc2⟩ := hc
        injection hc1 with hc1
        subst hc1
        subst hc2
        refine ⟨hh, ?_⟩
        have hsome : s₁.header.isSome = true := by rw [hh]; rfl
        simp [FecFile.get_header, FecFile.parse_header, hsome, hh]

/-- Witness for C6 at the concrete file f4: the second get_header call
returns the same header with no state change. -/
theorem claim_c6_witness :
    (FecFile.get_header f4).2.header = some hdr50 ∧
    FecFile.get_header (FecFile.get_header f4).2 =
      (Except.ok hdr50, (FecFile.get_header f4).2) :=
  claim_c6_get_header_memoized f4 _ hdr50 (by decide)

/-- C7: dialect selection is determined by the declared format version.
First, the header decoder classifies the version token: the uses_ascii28
flag is set exactly when the parsed version is at or above the threshold,
and the separator is UnitSeparator then and Comma otherwise. Second,
RowsParser::new (parser.rs) configures the byte tokenizer with the unit
separator byte 28 exactly when that flag is set and the comma byte 44
otherwise, and tokenizes every record with that byte. Third, the csv parser
of fec.rs maps the separator to the same bytes. -/
theorem claim_c7_dialect_selection :
    (∀ (src : List String) (hp : HeaderParsing) (rest : List String),
      header.parse_header src = Except.ok (hp, rest) →
      ∃ v, parseVersion hp.header.fec_version = some v ∧
        hp.uses_ascii28 = verLE usThreshold v ∧
        hp.sep = (if verLE usThreshold v then Sep.UnitSeparator else Sep.Comma)) ∧
    (∀ (body : List (List Nat)) (ver : String) (a28 : Bool),
      (parser.RowsParser.new body ver a28).delim = (if a28 then 28 else 44) ∧
      (parser.RowsParser.new body ver a28).records =
        body.map (parser.splitBytes (if a28 then 28 else 44))) ∧
    (∀ (rdr : List String) (ver : String) (sp : Sep),
      (csv.CsvParser.new rdr ver sp).delim =
        (if sp = Sep.UnitSeparator then Char.ofNat 28 else ',')) := by
  refine ⟨?_, ?_, ?_⟩
  · intro src hp rest hok
    cases src with
    | nil => simp [header.parse_header] at hok
    | cons lineStr rest' =>
      cases hsp : splitOnChar ',' lineStr with
      | nil => simp [header.parse_header, hsp] at hok
      | cons magic t1 =>
        cases t1 with
        | nil => simp [header.parse_header, hsp] at hok
        | cons ver t2 =>
          cases t2 with
          | nil => simp [header.parse_header, hsp] at hok
          | cons sw optFields =>
            by_cases hm : magic = "HDR"
            · cases hpv : parseVersion ver with
              | none => simp [header.parse_header, hsp, hm, hpv] at hok
              | some v =>
                simp only [header.parse_header, hsp, hm, hpv, if_pos] at hok
                injection hok with hok
                rw [Prod.mk.injEq] at hok
                obtain ⟨hhp, hrest⟩ := hok
                subst hhp
                exact ⟨v, by simpa using hpv, rfl, rfl⟩
            · simp [header.parse_header, hsp, hm] at hok
  · intro body ver a28
    exact ⟨rfl, rfl⟩
  · intro rdr ver sp
    cases sp <;> simp [csv.CsvParser.new]

/-- Witness for C7 at a concrete header: version 8.0 is at or above the
threshold 6.0 and selects the unit-separator dialect. -/
theorem claim_c7_witness :
    ∃ v, parseVersion
        ((⟨⟨"8.0", "sw", none, none, none⟩, Sep.UnitSeparator, true⟩ :
          HeaderParsing).header.fec_version) = some v ∧
      (⟨⟨"8.0", "sw", none, none, none⟩, Sep.UnitSeparator, true⟩ :
        HeaderParsing).uses_ascii28 = verLE usThreshold v ∧
      (⟨⟨"8.0", "sw", none, none, none⟩, Sep.UnitSeparator, true⟩ :
        HeaderParsing).sep =
        (if verLE usThreshold v then Sep.UnitSeparator else Sep.Comma) :=
  claim_c7_dialect_selection.1 ["HDR,8.0,sw", "body"]
    ⟨⟨"8.0", "sw", none, none, none⟩, Sep.UnitSeparator, true⟩ ["body"] (by decide)

end Feco3
